import Mathlib

/-!
A verification development for the crontab-guru expression editor
(techquestsdev/crontab-guru, `main.go`).

The Go program's core logic is shallowly embedded here:

* the per-field token validator (`isValidCronPart` and its helpers),
  translated character-for-character from the Go source; Go strings are
  modelled as Lean `String`s and Go's rune iteration as iteration over
  `String.toList`;
* the expression synthesizer (`buildCronExpression`), which joins the five
  field values with single spaces, substituting `*` for empty fields;
* the change-gated updater (`updateDescription`), modelled as a pure state
  transformer over a `Model` record; the two external collaborators (the
  description generator `crondesc.ToDescription` and the schedule parser
  `cronparser.Parse` composed with `Next(time.Now())` and formatting) are
  abstracted as oracle functions `String → Except String String`, and the
  updater additionally returns the list of collaborators it invoked;
* the focus navigator (`handleTabNavigation`, `handleShiftTabNavigation`),
  with the focus index kept as an `Int` to mirror Go's `int` arithmetic,
  and the per-field focused/blurred flags as a function `Fin 5 → Bool`;
* the clipboard payload of `handleCopyToClipboard` (the raw join of the
  five field values); clipboard access itself is external.
-/

namespace CrontabGuru

/-- Constant `fieldIndexMonth` from the source: index of the month field. -/
def fieldIndexMonth : Nat := 3

/-- Constant `fieldIndexWeekday` from the source: index of the weekday field. -/
def fieldIndexWeekday : Nat := 4

/-- Constant `minAbbrevLength` from the source: minimum length for
month/day abbreviations (e.g. "JAN", "MON"). -/
def minAbbrevLength : Nat := 3

/-- The message of `ErrInvalidValue` in the source. -/
def errInvalidValue : String := "invalid value in field"

/-- The message of `ErrCronParse` in the source. -/
def errCronParse : String := "failed to parse cron expression"

/-- The `fieldNames` table from the source, used for error messages. -/
def fieldNames : List String := ["minute", "hour", "day", "month", "weekday"]

/-- The `validMonths` table of `validateMonthAbbreviation`. -/
def validMonths : List String :=
  ["JAN", "FEB", "MAR", "APR", "MAY", "JUN",
   "JUL", "AUG", "SEP", "OCT", "NOV", "DEC"]

/-- The `validDays` table of `validateWeekdayAbbreviation`. -/
def validDays : List String := ["SUN", "MON", "TUE", "WED", "THU", "FRI", "SAT"]

/-- `validateMonthAbbreviation` from the source: the letter part is accepted
when some canonical month abbreviation occurs in it (Go
`strings.Contains(letterPart, month) || strings.HasPrefix(letterPart, month)`;
`<:+:` is list-infix, `<+:` list-prefix). -/
def validateMonthAbbreviation (letterPart : List Char) : Bool :=
  validMonths.any fun mth =>
    decide (mth.toList <:+: letterPart) || decide (mth.toList <+: letterPart)

/-- `validateWeekdayAbbreviation` from the source. -/
def validateWeekdayAbbreviation (letterPart : List Char) : Bool :=
  validDays.any fun day =>
    decide (day.toList <:+: letterPart) || decide (day.toList <+: letterPart)

/-- `extractLetterPart` from the source: uppercase the value
(`strings.ToUpper`), then collect the leading run of characters in `A`..`Z`. -/
def extractLetterPart (value : String) : List Char :=
  (value.toList.map Char.toUpper).takeWhile fun c => decide ('A' ≤ c ∧ c ≤ 'Z')

/-- `hasLetters` from the source: does the value contain an ASCII letter? -/
def hasLetters (value : String) : Bool :=
  value.toList.any fun c =>
    decide ('A' ≤ c ∧ c ≤ 'Z') || decide ('a' ≤ c ∧ c ≤ 'z')

/-- `validateStepValue` from the source.  A value not starting with `*`, or of
length ≤ 1, is accepted; `*` followed by anything but `/` is rejected;
exactly `*/` is rejected; otherwise every character after `*/` must be a
digit. -/
def validateStepValue (value : String) : Bool :=
  let l := value.toList
  if ['*'].isPrefixOf l = false ∨ l.length ≤ 1 then true
  else if l.getD 1 ' ' ≠ '/' then false
  else if l.length = 2 then false
  else (l.drop 2).all Char.isDigit

/-- `isValidCharForField` from the source: every character of the value must
be a digit or one of `*` `,` `-` `/`, extended with the uppercase alphabet
for the month and weekday fields. -/
def isValidCharForField (value : String) (fieldIndex : Nat) : Bool :=
  let validChars :=
    "0123456789*,-/" ++
      (if fieldIndex = fieldIndexMonth ∨ fieldIndex = fieldIndexWeekday then
        "ABCDEFGHIJKLMNOPQRSTUVWXYZ" else "")
  value.toList.all fun c => validChars.toList.contains c

/-- `validateLetterValue` from the source: letter-containing values are only
acceptable in the month/weekday fields, need a leading letter run of length
at least `minAbbrevLength`, and that run must match the field's
abbreviation table. -/
def validateLetterValue (value : String) (fieldIndex : Nat) : Bool :=
  if fieldIndex ≠ fieldIndexMonth ∧ fieldIndex ≠ fieldIndexWeekday then false
  else
    let letterPart := extractLetterPart value
    if letterPart.length < minAbbrevLength then false
    else if fieldIndex = fieldIndexMonth then validateMonthAbbreviation letterPart
    else validateWeekdayAbbreviation letterPart

/-- `isValidCronPart` from the source: the per-field token validator.
Field indices: 0 = minute, 1 = hour, 2 = day, 3 = month, 4 = weekday. -/
def isValidCronPart (value : String) (fieldIndex : Nat) : Bool :=
  if value = "" ∨ value = "*" then true
  else if !isValidCharForField value fieldIndex then false
  else if hasLetters value then validateLetterValue value fieldIndex
  else validateStepValue value

/-- The five text-input values of the model (`m.inputs[0..4].Value()`). -/
structure Inputs where
  v0 : String
  v1 : String
  v2 : String
  v3 : String
  v4 : String

/-- Field access by index, mirroring `m.inputs[i].Value()`. -/
def Inputs.get (inp : Inputs) (i : Fin 5) : String :=
  if i.val = 0 then inp.v0
  else if i.val = 1 then inp.v1
  else if i.val = 2 then inp.v2
  else if i.val = 3 then inp.v3
  else inp.v4

/-- `buildCronExpression` from the source: substitute `*` for empty values
and join the five parts with single spaces (`strings.Join(cronParts, " ")`). -/
def buildCronExpression (inp : Inputs) : String :=
  String.intercalate " "
    [if inp.v0 = "" then "*" else inp.v0,
     if inp.v1 = "" then "*" else inp.v1,
     if inp.v2 = "" then "*" else inp.v2,
     if inp.v3 = "" then "*" else inp.v3,
     if inp.v4 = "" then "*" else inp.v4]

/-- `validateCronParts` from the source, with the loop over the five inputs
unrolled: the first index whose value fails `isValidCronPart` yields the
error `fmt.Errorf("%w: %s", ErrInvalidValue, fieldNames[index])`. -/
def validateCronParts (inp : Inputs) : Option String :=
  if !isValidCronPart inp.v0 0 then some (errInvalidValue ++ ": " ++ "minute")
  else if !isValidCronPart inp.v1 1 then some (errInvalidValue ++ ": " ++ "hour")
  else if !isValidCronPart inp.v2 2 then some (errInvalidValue ++ ": " ++ "day")
  else if !isValidCronPart inp.v3 3 then some (errInvalidValue ++ ": " ++ "month")
  else if !isValidCronPart inp.v4 4 then some (errInvalidValue ++ ": " ++ "weekday")
  else none

/-- The fields of the Go `model` that the change-gated updater touches.
`err = none` models `m.err = nil`. -/
structure Model where
  inputs : Inputs
  description : String
  nextRun : String
  err : Option String
  lastCronExpr : String

/-- Marker for an invocation of one of the two external collaborators. -/
inductive Collab where
  | descriptor : Collab
  | scheduleParser : Collab
deriving DecidableEq

/-- `updateCronDescription` from the source, with the external
`m.cronDesc.ToDescription(cronExpr, Locale_en)` call abstracted as the
oracle `descFn`.  Returns the new model state plus the collaborator
invocation made. -/
def updateCronDescription (descFn : String → Except String String)
    (cronExpr : String) (m : Model) : Model × List Collab :=
  match descFn cronExpr with
  | .error e => ({ m with err := some e, description := "", nextRun := "" },
                 [Collab.descriptor])
  | .ok d => ({ m with description := d, err := none }, [Collab.descriptor])

/-- `updateNextRunTime` from the source, with the external
`parser.Parse(cronExpr)` / `schedule.Next(time.Now())` / formatting pipeline
abstracted as the oracle `parseFn` (success carries the formatted next-run
string).  A parse error is wrapped as `ErrCronParse: err`. -/
def updateNextRunTime (parseFn : String → Except String String)
    (cronExpr : String) (m : Model) : Model × List Collab :=
  match parseFn cronExpr with
  | .error e => ({ m with nextRun := "", err := some (errCronParse ++ ": " ++ e) },
                 [Collab.scheduleParser])
  | .ok t => ({ m with nextRun := t }, [Collab.scheduleParser])

/-- `clearDescription` from the source. -/
def clearDescription (m : Model) : Model :=
  { m with description := "", nextRun := "", err := none }

/-- Go's `unicode.IsSpace`: in the Latin-1 range the characters HT, LF, VT,
FF, CR, space, NEL (U+0085) and NBSP (U+00A0); above it the Unicode
White_Space code points U+1680, U+2000..U+200A, U+2028, U+2029, U+202F,
U+205F and U+3000. -/
def isGoSpace (c : Char) : Bool :=
  decide (c.toNat = 0x09 ∨ c.toNat = 0x0A ∨ c.toNat = 0x0B ∨ c.toNat = 0x0C
    ∨ c.toNat = 0x0D ∨ c.toNat = 0x20 ∨ c.toNat = 0x85 ∨ c.toNat = 0xA0
    ∨ c.toNat = 0x1680 ∨ (0x2000 ≤ c.toNat ∧ c.toNat ≤ 0x200A)
    ∨ c.toNat = 0x2028 ∨ c.toNat = 0x2029 ∨ c.toNat = 0x202F
    ∨ c.toNat = 0x205F ∨ c.toNat = 0x3000)

/-- Models the source's `strings.TrimSpace(cronExpr) == ""` test: the trimmed
string is empty exactly when every rune satisfies `unicode.IsSpace`. -/
def isAllWhitespace (s : String) : Bool :=
  s.toList.all isGoSpace

/-- `updateDescription` from the source: the change-gated updater.
Synthesize the expression; short-circuit when it equals `lastCronExpr`;
record it as last seen; clear everything when it is all whitespace; report
the first validation failure; otherwise run both collaborators in order.
The second component lists the collaborators invoked during the cycle. -/
def updateDescription (descFn parseFn : String → Except String String)
    (m : Model) : Model × List Collab :=
  let cronExpr := buildCronExpression m.inputs
  if cronExpr = m.lastCronExpr then (m, [])
  else
    let m1 : Model := { m with lastCronExpr := cronExpr }
    if isAllWhitespace cronExpr then (clearDescription m1, [])
    else
      match validateCronParts m1.inputs with
      | some msg =>
          ({ m1 with err := some msg, description := "", nextRun := "" }, [])
      | none =>
          let r1 := updateCronDescription descFn cronExpr m1
          let r2 := updateNextRunTime parseFn cronExpr r1.1
          (r2.1, r1.2 ++ r2.2)

/-- The focus-navigation state: Go's `m.focusIndex` (an `int`) plus the
focused/blurred flag of each of the five text inputs. -/
structure NavState where
  focusIndex : Int
  focused : Fin 5 → Bool

/-- `m.inputs[i].Blur()`: clear the focus flag of the input at index `i`. -/
def blurAt (f : Fin 5 → Bool) (i : Int) : Fin 5 → Bool :=
  fun j => if (j.val : Int) = i then false else f j

/-- `m.inputs[i].Focus()`: set the focus flag of the input at index `i`. -/
def focusAt (f : Fin 5 → Bool) (i : Int) : Fin 5 → Bool :=
  fun j => if (j.val : Int) = i then true else f j

/-- `handleTabNavigation` from the source: blur the active input, advance
`focusIndex` to `(focusIndex+1) % len(m.inputs)`, focus the new input. -/
def handleTabNavigation (s : NavState) : NavState :=
  let f1 := blurAt s.focused s.focusIndex
  let newIdx := (s.focusIndex + 1) % 5
  { focusIndex := newIdx, focused := focusAt f1 newIdx }

/-- `handleShiftTabNavigation` from the source: blur the active input,
decrement `focusIndex` with wraparound to `len(m.inputs)-1`, and focus the
new input (with the source's defensive re-check of the bounds). -/
def handleShiftTabNavigation (s : NavState) : NavState :=
  let f1 := blurAt s.focused s.focusIndex
  let idx0 := s.focusIndex - 1
  let idx1 := if idx0 < 0 then 4 else idx0
  if 0 ≤ idx1 ∧ idx1 < 5 then { focusIndex := idx1, focused := focusAt f1 idx1 }
  else { focusIndex := 0, focused := focusAt f1 0 }

/-- The string `handleCopyToClipboard` sends to the clipboard: the five raw
input values joined with single spaces, with no `*` substitution. -/
def handleCopyToClipboard (inp : Inputs) : String :=
  String.intercalate " " [inp.v0, inp.v1, inp.v2, inp.v3, inp.v4]

/-- The claim's acceptance condition for letter-free values, stated in the
spec's own words for comparison with `isValidCronPart`: such a value is
valid unless it begins with `*` followed by a character other than `/`, or
it is exactly the two characters `*` `/`, or it begins with `*` `/` and a
non-digit character occurs anywhere after the slash. -/
def claimNumericAccepts (value : String) : Bool :=
  let l := value.toList
  (if 2 ≤ l.length ∧ l.headD ' ' = '*' ∧ l.getD 1 ' ' ≠ '/' then false else true)
  && (if l = ['*', '/'] then false else true)
  && (if ['*', '/'].isPrefixOf l ∧ (l.drop 2).any (fun c => !c.isDigit) then false
      else true)

/-- The canonical abbreviation table of a field: months for the month field,
weekdays for the weekday field, empty otherwise. -/
def fieldAbbrevs (f : Nat) : List String :=
  if f = fieldIndexMonth then validMonths
  else if f = fieldIndexWeekday then validDays
  else []

/-- Joining five strings with single spaces, written out. -/
lemma intercalate_five (a b c d e : String) :
    String.intercalate " " [a, b, c, d, e] =
      a ++ " " ++ b ++ " " ++ c ++ " " ++ d ++ " " ++ e := rfl

/-- A value whose characters are all in the base character set passes the
character check of every field. -/
lemma charForField_of_base (value : String) (f : Nat)
    (h : (value.toList.all fun c => "0123456789*,-/".toList.contains c) = true) :
    isValidCharForField value f = true := by
  unfold isValidCharForField
  rw [List.all_eq_true] at h ⊢
  intro c hc
  have hbase : c ∈ "0123456789*,-/".toList := List.elem_iff.mp (h c hc)
  rw [List.elem_iff]
  have hsplit :
      ("0123456789*,-/" ++
          (if f = fieldIndexMonth ∨ f = fieldIndexWeekday then
            "ABCDEFGHIJKLMNOPQRSTUVWXYZ" else "")).toList =
        "0123456789*,-/".toList ++
          (if f = fieldIndexMonth ∨ f = fieldIndexWeekday then
            "ABCDEFGHIJKLMNOPQRSTUVWXYZ" else "").toList :=
    String.data_append _ _
  rw [hsplit]
  exact List.mem_append_left _ hbase

/-- A value whose characters are all in the base character set contains no
letter. -/
lemma hasLetters_of_base (value : String)
    (h : (value.toList.all fun c => "0123456789*,-/".toList.contains c) = true) :
    hasLetters value = false := by
  unfold hasLetters
  rw [List.any_eq_false]
  intro c hc
  have hbase : c ∈ "0123456789*,-/".toList := List.elem_iff.mp (List.all_eq_true.mp h c hc)
  have hno : ∀ x ∈ "0123456789*,-/".toList,
      (decide ('A' ≤ x ∧ x ≤ 'Z') || decide ('a' ≤ x ∧ x ≤ 'z')) = false := by decide
  intro hcon
  rw [hno c hbase] at hcon
  cases hcon

/-- A value containing a letter is neither empty nor the bare wildcard. -/
lemma ne_special_of_hasLetters (value : String) (h : hasLetters value = true) :
    ¬(value = "" ∨ value = "*") := by
  rintro (rfl | rfl)
  · exact absurd h (by decide)
  · exact absurd h (by decide)

/-- Any value containing a lowercase ASCII letter is rejected for every
field: the character-set check runs before any uppercasing and admits only
uppercase letters. -/
lemma lowercase_rejected (value : String) (f : Nat)
    (h : (value.toList.any fun c => decide ('a' ≤ c ∧ c ≤ 'z')) = true) :
    isValidCronPart value f = false := by
  obtain ⟨c, hc, hlow⟩ := List.any_eq_true.mp h
  have hlow' : 'a' ≤ c ∧ c ≤ 'z' := of_decide_eq_true hlow
  have hA : ¬(value = "" ∨ value = "*") := by
    rintro (rfl | rfl)
    · exact absurd hc (List.not_mem_nil c)
    · rw [show ("*" : String).toList = ['*'] from rfl] at hc
      rw [List.mem_singleton] at hc
      subst hc
      exact absurd hlow' (by decide)
  have hB : isValidCharForField value f = false := by
    cases hcf : isValidCharForField value f
    · rfl
    · exfalso
      unfold isValidCharForField at hcf
      rw [List.all_eq_true] at hcf
      have hmem := List.elem_iff.mp (hcf c hc)
      have hsplit :
          ("0123456789*,-/" ++
              (if f = fieldIndexMonth ∨ f = fieldIndexWeekday then
                "ABCDEFGHIJKLMNOPQRSTUVWXYZ" else "")).toList =
            "0123456789*,-/".toList ++
              (if f = fieldIndexMonth ∨ f = fieldIndexWeekday then
                "ABCDEFGHIJKLMNOPQRSTUVWXYZ" else "").toList :=
        String.data_append _ _
      rw [hsplit] at hmem
      rcases List.mem_append.mp hmem with hm | hm
      · have : ∀ x ∈ "0123456789*,-/".toList, ¬('a' ≤ x ∧ x ≤ 'z') := by decide
        exact this c hm hlow'
      · by_cases hf : f = fieldIndexMonth ∨ f = fieldIndexWeekday
        · rw [if_pos hf] at hm
          have : ∀ x ∈ "ABCDEFGHIJKLMNOPQRSTUVWXYZ".toList, ¬('a' ≤ x ∧ x ≤ 'z') := by
            decide
          exact this c hm hlow'
        · rw [if_neg hf] at hm
          exact absurd hm (List.not_mem_nil c)
  simp [isValidCronPart, hA, hB]

/-- On non-special values with valid characters and a letter, the validator
reduces to the letter-value check. -/
lemma isValidCronPart_letters (value : String) (f : Nat)
    (hA : ¬(value = "" ∨ value = "*"))
    (hB : isValidCharForField value f = true)
    (hL : hasLetters value = true) :
    isValidCronPart value f = validateLetterValue value f := by
  simp [isValidCronPart, hA, hB, hL]

/-- On non-special values with valid characters and no letter, the validator
reduces to the step-value check. -/
lemma isValidCronPart_no_letters (value : String) (f : Nat)
    (hA : ¬(value = "" ∨ value = "*"))
    (hB : isValidCharForField value f = true)
    (hL : hasLetters value = false) :
    isValidCronPart value f = validateStepValue value := by
  simp [isValidCronPart, hA, hB, hL]

/-- A valid non-special value passes the character check. -/
lemma charForField_of_valid (value : String) (f : Nat)
    (hA : ¬(value = "" ∨ value = "*"))
    (h : isValidCronPart value f = true) :
    isValidCharForField value f = true := by
  cases hcf : isValidCharForField value f
  · rw [isValidCronPart, if_neg hA] at h
    rw [hcf] at h
    simp at h
  · rfl

/-- The abbreviation tables accept a letter part exactly when some listed
abbreviation occurs in it as an infix: the Go code's extra
`strings.HasPrefix` disjunct is subsumed by `strings.Contains`. -/
lemma abbrev_exists_iff (L : List String) (lp : List Char) :
    (∃ x ∈ L, x.data <:+: lp ∨ x.data <+: lp) ↔ ∃ x ∈ L, x.data <:+: lp := by
  constructor
  · rintro ⟨a, ha, hin | hpre⟩
    · exact ⟨a, ha, hin⟩
    · exact ⟨a, ha, hpre.isInfix⟩
  · rintro ⟨a, ha, hin⟩
    exact ⟨a, ha, Or.inl hin⟩

/-- `validateLetterValue` characterized: the field is month or weekday, the
uppercased leading letter run has length at least three, and that run
contains one of the field's canonical abbreviations. -/
lemma validateLetterValue_iff (value : String) (f : Nat) :
    validateLetterValue value f = true ↔
      ((f = fieldIndexMonth ∨ f = fieldIndexWeekday)
       ∧ minAbbrevLength ≤ (extractLetterPart value).length
       ∧ ((fieldAbbrevs f).any fun a =>
            decide (a.toList <:+: extractLetterPart value)) = true) := by
  unfold validateLetterValue fieldAbbrevs
  by_cases hm : f = fieldIndexMonth
  · subst hm
    have hne : fieldIndexMonth ≠ fieldIndexWeekday := by decide
    by_cases hlen : (extractLetterPart value).length < minAbbrevLength
    · simp [hne, hlen, Nat.not_le.mpr hlen]
    · simp [hne, hlen, Nat.not_lt.mp hlen, validateMonthAbbreviation]
      exact abbrev_exists_iff validMonths (extractLetterPart value)
  · by_cases hw : f = fieldIndexWeekday
    · subst hw
      have hne : fieldIndexWeekday ≠ fieldIndexMonth := by decide
      by_cases hlen : (extractLetterPart value).length < minAbbrevLength
      · simp [hne, hlen, Nat.not_le.mpr hlen]
      · simp [hne, hlen, Nat.not_lt.mp hlen, validateWeekdayAbbreviation]
        exact abbrev_exists_iff validDays (extractLetterPart value)
    · simp [hm, hw]

/-- The step-value check agrees with the claim's description of the accepted
letter-free grammar on every string. -/
lemma stepValue_eq_claim (value : String) :
    validateStepValue value = claimNumericAccepts value := by
  unfold validateStepValue claimNumericAccepts
  dsimp only
  generalize value.toList = l
  rcases l with _ | ⟨c, _ | ⟨c2, rest⟩⟩
  · decide
  · by_cases hc : c = '*'
    · subst hc; decide
    · have hpre : (['*'].isPrefixOf [c]) = false := by
        simp [List.isPrefixOf, Ne.symm hc]
      have hpre2 : (['*', '/'].isPrefixOf [c]) = false := by
        simp [List.isPrefixOf, Ne.symm hc]
      simp [hpre, hpre2, hc]
  · by_cases hc : c = '*'
    · subst hc
      by_cases hc2 : c2 = '/'
      · subst hc2
        rcases rest with _ | ⟨c3, rest2⟩
        · decide
        · have hC1 : ¬((['*'].isPrefixOf ('*' :: '/' :: c3 :: rest2)) = false
              ∨ ('*' :: '/' :: c3 :: rest2 : List Char).length ≤ 1) := by
            simp [List.isPrefixOf]
          have hC2 : ¬(('*' :: '/' :: c3 :: rest2 : List Char).getD 1 ' ' ≠ '/') := by
            simp
          have hC3 : ¬(('*' :: '/' :: c3 :: rest2 : List Char).length = 2) := by
            simp
          have hD1 : ¬(2 ≤ ('*' :: '/' :: c3 :: rest2 : List Char).length
              ∧ ('*' :: '/' :: c3 :: rest2 : List Char).headD ' ' = '*'
              ∧ ('*' :: '/' :: c3 :: rest2 : List Char).getD 1 ' ' ≠ '/') := by
            simp
          have hD2 : ('*' :: '/' :: c3 :: rest2 : List Char) ≠ ['*', '/'] := by
            simp
          rw [if_neg hC1, if_neg hC2, if_neg hC3, if_neg hD1, if_neg hD2]
          by_cases hany :
              ((('*' :: '/' :: c3 :: rest2 : List Char).drop 2).any
                fun c => !c.isDigit) = true
          · rw [if_pos ⟨by simp [List.isPrefixOf], hany⟩]
            obtain ⟨x, hx, hxd⟩ := List.any_eq_true.mp hany
            have hfalse : (('*' :: '/' :: c3 :: rest2 : List Char).drop 2).all
                Char.isDigit = false := by
              rw [List.all_eq_false]
              exact ⟨x, hx, by simpa using hxd⟩
            rw [hfalse]
            rfl
          · rw [if_neg fun hcon => hany hcon.2]
            have hall : (('*' :: '/' :: c3 :: rest2 : List Char).drop 2).all
                Char.isDigit = true := by
              rw [List.all_eq_true]
              intro x hx
              have hx' := List.any_eq_false.mp (Bool.eq_false_iff.mpr hany) x hx
              simpa using hx'
            rw [hall]
            rfl
      · have hgd : ([('*' : Char), c2] ++ rest).getD 1 ' ' = c2 := by
          simp
        have hpre2 : (['*', '/'].isPrefixOf ('*' :: c2 :: rest)) = false := by
          simp [List.isPrefixOf, Ne.symm hc2]
        have hlist : ('*' :: c2 :: rest : List Char) ≠ ['*', '/'] := by
          intro hcon
          rw [List.cons.injEq, List.cons.injEq] at hcon
          exact hc2 hcon.2.1
        simp [List.isPrefixOf, hc2, hpre2, hlist, hgd]
    · have hpre : (['*'].isPrefixOf (c :: c2 :: rest)) = false := by
        simp [List.isPrefixOf, Ne.symm hc]
      have hpre2 : (['*', '/'].isPrefixOf (c :: c2 :: rest)) = false := by
        simp [List.isPrefixOf, Ne.symm hc]
      have hlist : (c :: c2 :: rest : List Char) ≠ ['*', '/'] := by
        intro hcon
        rw [List.cons.injEq] at hcon
        exact hc hcon.1
      simp [hpre, hpre2, hlist, hc]

/-- C1: a letter-containing value is accepted only when the field is month
or weekday, the leading letter run (case-normalized) has length at least 3,
and that run contains one of the field's canonical abbreviations; given
valid characters these conditions are also sufficient, and in particular
`isValidCronPart "JAN" 3`, `isValidCronPart "JANUARY" 3` hold while
`isValidCronPart "XYZ" 3` and `isValidCronPart "JA" 3` fail. -/
theorem letter_value_validation (value : String) (f : Nat) :
    (hasLetters value = true → isValidCronPart value f = true →
      (f = fieldIndexMonth ∨ f = fieldIndexWeekday)
      ∧ minAbbrevLength ≤ (extractLetterPart value).length
      ∧ ((fieldAbbrevs f).any fun a =>
          decide (a.toList <:+: extractLetterPart value)) = true)
    ∧ (hasLetters value = true → isValidCharForField value f = true →
      ((f = fieldIndexMonth ∨ f = fieldIndexWeekday)
       ∧ minAbbrevLength ≤ (extractLetterPart value).length
       ∧ ((fieldAbbrevs f).any fun a =>
           decide (a.toList <:+: extractLetterPart value)) = true) →
      isValidCronPart value f = true)
    ∧ isValidCronPart "JAN" 3 = true ∧ isValidCronPart "JANUARY" 3 = true
    ∧ isValidCronPart "XYZ" 3 = false ∧ isValidCronPart "JA" 3 = false := by
  refine ⟨?_, ?_, by decide, by decide, by decide, by decide⟩
  · intro hL hvalid
    have hA := ne_special_of_hasLetters value hL
    have hB := charForField_of_valid value f hA hvalid
    rw [isValidCronPart_letters value f hA hB hL] at hvalid
    exact (validateLetterValue_iff value f).mp hvalid
  · intro hL hB hcond
    have hA := ne_special_of_hasLetters value hL
    rw [isValidCronPart_letters value f hA hB hL]
    exact (validateLetterValue_iff value f).mpr hcond

/-- Witness for C1 at the month value "JANUARY". -/
theorem letter_value_validation_witness :
    (3 = fieldIndexMonth ∨ 3 = fieldIndexWeekday)
    ∧ minAbbrevLength ≤ (extractLetterPart "JANUARY").length
    ∧ ((fieldAbbrevs 3).any fun a =>
        decide (a.toList <:+: extractLetterPart "JANUARY")) = true :=
  (letter_value_validation "JANUARY" 3).1 (by decide) (by decide)

/-- C2: on letter-free values over the allowed character set,
`isValidCronPart` accepts exactly the values described by
`claimNumericAccepts` (no `*` followed by a non-slash, not exactly the two
characters `*` `/`, no non-digit after `*` `/`), for every field; ranges,
lists, steps and malformed combinations such as `1--5` or `,,` are all
accepted without bound checking. -/
theorem numeric_value_validation :
    (∀ (value : String) (f : Nat),
      (value.toList.all fun c => "0123456789*,-/".toList.contains c) = true →
      (isValidCronPart value f = true ↔ claimNumericAccepts value = true))
    ∧ (∀ f : Nat, isValidCronPart "*/5" f = true ∧ isValidCronPart "*/" f = false
        ∧ isValidCronPart "*a" f = false)
    ∧ isValidCronPart "1-5/2" 0 = true ∧ isValidCronPart "1--5" 0 = true
    ∧ isValidCronPart ",," 0 = true := by
  refine ⟨?_, ?_, by decide, by decide, by decide⟩
  · intro value f h
    by_cases hA : value = "" ∨ value = "*"
    · have h1 : isValidCronPart value f = true := by simp [isValidCronPart, hA]
      have h2 : claimNumericAccepts value = true := by
        rcases hA with rfl | rfl <;> decide
      simp [h1, h2]
    · rw [isValidCronPart_no_letters value f hA (charForField_of_base value f h)
          (hasLetters_of_base value h), stepValue_eq_claim]
  · intro f
    refine ⟨?_, ?_, lowercase_rejected "*a" f (by decide)⟩
    · rw [isValidCronPart_no_letters "*/5" f (by decide)
        (charForField_of_base "*/5" f (by decide)) (by decide)]
      decide
    · rw [isValidCronPart_no_letters "*/" f (by decide)
        (charForField_of_base "*/" f (by decide)) (by decide)]
      decide

/-- Witness for C2 at the value "*/7" in the hour field. -/
theorem numeric_value_validation_witness :
    isValidCronPart "*/7" 1 = true ↔ claimNumericAccepts "*/7" = true :=
  numeric_value_validation.1 "*/7" 1 (by decide)

/-- Counterexample to C3: lowercase "jan" is rejected for the month field
while its uppercase form "JAN" is accepted, so validation is not
case-insensitive. -/
theorem case_insensitive_counterexample :
    isValidCronPart "jan" 3 = false ∧ isValidCronPart "JAN" 3 = true :=
  ⟨by decide, by decide⟩

/-- C3 amended: only the abbreviation-matching step is case-insensitive
(`extractLetterPart` uppercases before extracting the letter run), but the
character-set check runs first and admits only uppercase letters, so any
value containing a lowercase ASCII letter is rejected for every field. -/
theorem uppercase_only_matching :
    (∀ (value : String) (f : Nat),
      (value.toList.any fun c => decide ('a' ≤ c ∧ c ≤ 'z')) = true →
      isValidCronPart value f = false)
    ∧ extractLetterPart "jan" = "JAN".toList
    ∧ isValidCronPart "jan" 3 = false ∧ isValidCronPart "JAN" 3 = true :=
  ⟨lowercase_rejected, by decide, by decide, by decide⟩

/-- Witness for the amended C3 at the lowercase value "x5". -/
theorem uppercase_only_matching_witness : isValidCronPart "x5" 0 = false :=
  uppercase_only_matching.1 "x5" 0 (by decide)

/-- C4: the empty string and the lone wildcard are valid for every field. -/
theorem empty_and_wildcard_always_valid (f : Nat) :
    isValidCronPart "" f = true ∧ isValidCronPart "*" f = true :=
  ⟨by simp [isValidCronPart], by simp [isValidCronPart]⟩

/-- C5: expression synthesis is a pure total function joining the five
field values with single spaces in field order, replacing each empty value
by `*`; on five empty fields it yields "* * * * *". -/
theorem synthesis_joins_fields :
    (∀ a b c d e : String,
      buildCronExpression ⟨a, b, c, d, e⟩ =
        (if a = "" then "*" else a) ++ " " ++ (if b = "" then "*" else b) ++ " "
          ++ (if c = "" then "*" else c) ++ " " ++ (if d = "" then "*" else d)
          ++ " " ++ (if e = "" then "*" else e))
    ∧ buildCronExpression ⟨"", "", "", "", ""⟩ = "* * * * *" :=
  ⟨fun _ _ _ _ _ => rfl, by decide⟩

/-- C10: the clipboard payload joins the raw field values without wildcard
substitution, so it differs from the synthesized canonical expression
whenever some field is empty; with all five fields empty it is four
spaces. -/
theorem copy_uses_raw_values :
    (∀ inp : Inputs,
      (inp.v0 = "" ∨ inp.v1 = "" ∨ inp.v2 = "" ∨ inp.v3 = "" ∨ inp.v4 = "") →
      handleCopyToClipboard inp ≠ buildCronExpression inp)
    ∧ handleCopyToClipboard ⟨"", "", "", "", ""⟩ = "    "
    ∧ buildCronExpression ⟨"", "", "", "", ""⟩ = "* * * * *" := by
  refine ⟨?_, by decide, by decide⟩
  intro inp hempty heq
  have hlen := congrArg String.length heq
  rw [handleCopyToClipboard, buildCronExpression, intercalate_five,
    intercalate_five] at hlen
  simp only [String.length_append,
    show (" " : String).length = 1 from rfl] at hlen
  have l0 : inp.v0.length ≤ (if inp.v0 = "" then "*" else inp.v0).length := by
    by_cases h : inp.v0 = "" <;> simp [h]
  have l1 : inp.v1.length ≤ (if inp.v1 = "" then "*" else inp.v1).length := by
    by_cases h : inp.v1 = "" <;> simp [h]
  have l2 : inp.v2.length ≤ (if inp.v2 = "" then "*" else inp.v2).length := by
    by_cases h : inp.v2 = "" <;> simp [h]
  have l3 : inp.v3.length ≤ (if inp.v3 = "" then "*" else inp.v3).length := by
    by_cases h : inp.v3 = "" <;> simp [h]
  have l4 : inp.v4.length ≤ (if inp.v4 = "" then "*" else inp.v4).length := by
    by_cases h : inp.v4 = "" <;> simp [h]
  rcases hempty with h | h | h | h | h
  · have hs : inp.v0.length + 1 = (if inp.v0 = "" then "*" else inp.v0).length := by
      rw [h]; decide
    omega
  · have hs : inp.v1.length + 1 = (if inp.v1 = "" then "*" else inp.v1).length := by
      rw [h]; decide
    omega
  · have hs : inp.v2.length + 1 = (if inp.v2 = "" then "*" else inp.v2).length := by
      rw [h]; decide
    omega
  · have hs : inp.v3.length + 1 = (if inp.v3 = "" then "*" else inp.v3).length := by
      rw [h]; decide
    omega
  · have hs : inp.v4.length + 1 = (if inp.v4 = "" then "*" else inp.v4).length := by
      rw [h]; decide
    omega

/-- Witness for C10 with all five fields empty. -/
theorem copy_uses_raw_values_witness :
    handleCopyToClipboard ⟨"", "", "", "", ""⟩
      ≠ buildCronExpression ⟨"", "", "", "", ""⟩ :=
  copy_uses_raw_values.1 ⟨"", "", "", "", ""⟩ (Or.inl rfl)

/-- If some field fails the validator, `validateCronParts` reports the first
failing field, by field order. -/
lemma validateCronParts_first (inp : Inputs) (i : Fin 5)
    (hfail : isValidCronPart (inp.get i) i.val = false) :
    ∃ j : Fin 5, isValidCronPart (inp.get j) j.val = false
      ∧ (∀ k : Fin 5, k.val < j.val → isValidCronPart (inp.get k) k.val = true)
      ∧ validateCronParts inp
          = some (errInvalidValue ++ ": " ++ fieldNames.getD j.val "") := by
  cases h0 : isValidCronPart inp.v0 0
  · refine ⟨⟨0, by omega⟩, ?_, ?_, ?_⟩
    · show isValidCronPart inp.v0 0 = false
      exact h0
    · intro k hk
      have hk' : k.val < 0 := hk
      exact absurd hk' (by omega)
    · simp [validateCronParts, h0, fieldNames]
  · cases h1 : isValidCronPart inp.v1 1
    · refine ⟨⟨1, by omega⟩, ?_, ?_, ?_⟩
      · show isValidCronPart inp.v1 1 = false
        exact h1
      · intro k hk
        have hk' : k.val < 1 := hk
        have hk0 : k.val = 0 := by omega
        have hget : inp.get k = inp.v0 := by simp [Inputs.get, hk0]
        rw [hget, hk0]
        exact h0
      · simp [validateCronParts, h0, h1, fieldNames]
    · cases h2 : isValidCronPart inp.v2 2
      · refine ⟨⟨2, by omega⟩, ?_, ?_, ?_⟩
        · show isValidCronPart inp.v2 2 = false
          exact h2
        · intro k hk
          have hk' : k.val < 2 := hk
          have hcase : k.val = 0 ∨ k.val = 1 := by omega
          rcases hcase with hk0 | hk1
          · have hget : inp.get k = inp.v0 := by simp [Inputs.get, hk0]
            rw [hget, hk0]
            exact h0
          · have hget : inp.get k = inp.v1 := by simp [Inputs.get, hk1]
            rw [hget, hk1]
            exact h1
        · simp [validateCronParts, h0, h1, h2, fieldNames]
      · cases h3 : isValidCronPart inp.v3 3
        · refine ⟨⟨3, by omega⟩, ?_, ?_, ?_⟩
          · show isValidCronPart inp.v3 3 = false
            exact h3
          · intro k hk
            have hk' : k.val < 3 := hk
            have hcase : k.val = 0 ∨ k.val = 1 ∨ k.val = 2 := by omega
            rcases hcase with hk0 | hk1 | hk2
            · have hget : inp.get k = inp.v0 := by simp [Inputs.get, hk0]
              rw [hget, hk0]
              exact h0
            · have hget : inp.get k = inp.v1 := by simp [Inputs.get, hk1]
              rw [hget, hk1]
              exact h1
            · have hget : inp.get k = inp.v2 := by simp [Inputs.get, hk2]
              rw [hget, hk2]
              exact h2
          · simp [validateCronParts, h0, h1, h2, h3, fieldNames]
        · cases h4 : isValidCronPart inp.v4 4
          · refine ⟨⟨4, by omega⟩, ?_, ?_, ?_⟩
            · show isValidCronPart inp.v4 4 = false
              exact h4
            · intro k hk
              have hk' : k.val < 4 := hk
              have hcase : k.val = 0 ∨ k.val = 1 ∨ k.val = 2 ∨ k.val = 3 := by
                omega
              rcases hcase with hk0 | hk1 | hk2 | hk3
              · have hget : inp.get k = inp.v0 := by simp [Inputs.get, hk0]
                rw [hget, hk0]
                exact h0
              · have hget : inp.get k = inp.v1 := by simp [Inputs.get, hk1]
                rw [hget, hk1]
                exact h1
              · have hget : inp.get k = inp.v2 := by simp [Inputs.get, hk2]
                rw [hget, hk2]
                exact h2
              · have hget : inp.get k = inp.v3 := by simp [Inputs.get, hk3]
                rw [hget, hk3]
                exact h3
            · simp [validateCronParts, h0, h1, h2, h3, h4, fieldNames]
          · exfalso
            have hall : ∀ k : Fin 5, isValidCronPart (inp.get k) k.val = true := by
              intro k
              obtain ⟨kv, hkv⟩ := k
              have hcase : kv = 0 ∨ kv = 1 ∨ kv = 2 ∨ kv = 3 ∨ kv = 4 := by omega
              rcases hcase with rfl | rfl | rfl | rfl | rfl
              · show isValidCronPart inp.v0 0 = true
                exact h0
              · show isValidCronPart inp.v1 1 = true
                exact h1
              · show isValidCronPart inp.v2 2 = true
                exact h2
              · show isValidCronPart inp.v3 3 = true
                exact h3
              · show isValidCronPart inp.v4 4 = true
                exact h4
            rw [hall i] at hfail
            cases hfail

/-- If every field passes the validator, `validateCronParts` reports
nothing. -/
lemma validateCronParts_none (inp : Inputs)
    (h : ∀ i : Fin 5, isValidCronPart (inp.get i) i.val = true) :
    validateCronParts inp = none := by
  have h0 : isValidCronPart inp.v0 0 = true := h ⟨0, by omega⟩
  have h1 : isValidCronPart inp.v1 1 = true := h ⟨1, by omega⟩
  have h2 : isValidCronPart inp.v2 2 = true := h ⟨2, by omega⟩
  have h3 : isValidCronPart inp.v3 3 = true := h ⟨3, by omega⟩
  have h4 : isValidCronPart inp.v4 4 = true := h ⟨4, by omega⟩
  simp [validateCronParts, h0, h1, h2, h3, h4]

/-- On a cache hit the updater is a no-op, invoking nothing. -/
lemma updateDescription_noop (descFn parseFn : String → Except String String)
    (m : Model) (h : buildCronExpression m.inputs = m.lastCronExpr) :
    updateDescription descFn parseFn m = (m, []) := by
  simp [updateDescription, h]

/-- The updater never changes the input fields. -/
lemma updateDescription_inputs (descFn parseFn : String → Except String String)
    (m : Model) : (updateDescription descFn parseFn m).1.inputs = m.inputs := by
  by_cases hc : buildCronExpression m.inputs = m.lastCronExpr
  · simp [updateDescription, hc]
  · by_cases hw : isAllWhitespace (buildCronExpression m.inputs) = true
    · simp [updateDescription, hc, hw, clearDescription]
    · cases hv : validateCronParts m.inputs
      · cases hd : descFn (buildCronExpression m.inputs) <;>
          cases hp : parseFn (buildCronExpression m.inputs) <;>
            simp [updateDescription, hc, hw, hv, updateCronDescription,
              updateNextRunTime, hd, hp]
      · simp [updateDescription, hc, hw, hv]

/-- After any updater cycle, the last-seen expression equals the synthesis
of the (unchanged) inputs. -/
lemma updateDescription_lastSeen (descFn parseFn : String → Except String String)
    (m : Model) : (updateDescription descFn parseFn m).1.lastCronExpr
      = buildCronExpression m.inputs := by
  by_cases hc : buildCronExpression m.inputs = m.lastCronExpr
  · simp [updateDescription, hc]
  · by_cases hw : isAllWhitespace (buildCronExpression m.inputs) = true
    · simp [updateDescription, hc, hw, clearDescription]
    · cases hv : validateCronParts m.inputs
      · cases hd : descFn (buildCronExpression m.inputs) <;>
          cases hp : parseFn (buildCronExpression m.inputs) <;>
            simp [updateDescription, hc, hw, hv, updateCronDescription,
              updateNextRunTime, hd, hp]
      · simp [updateDescription, hc, hw, hv]

/-- C6: in a processing cycle (the synthesized expression differs from the
last-seen one and is not all whitespace) with some field failing the
validator, the updater stores the error naming the first failing field,
clears description and next-run, and invokes no collaborator. -/
theorem updater_reports_first_invalid
    (descFn parseFn : String → Except String String) (m : Model) (i : Fin 5)
    (hne : buildCronExpression m.inputs ≠ m.lastCronExpr)
    (hws : isAllWhitespace (buildCronExpression m.inputs) = false)
    (hfail : isValidCronPart (m.inputs.get i) i.val = false) :
    ∃ j : Fin 5, isValidCronPart (m.inputs.get j) j.val = false
      ∧ (∀ k : Fin 5, k.val < j.val → isValidCronPart (m.inputs.get k) k.val = true)
      ∧ (updateDescription descFn parseFn m).1.err
          = some (errInvalidValue ++ ": " ++ fieldNames.getD j.val "")
      ∧ (updateDescription descFn parseFn m).1.description = ""
      ∧ (updateDescription descFn parseFn m).1.nextRun = ""
      ∧ (updateDescription descFn parseFn m).2 = [] := by
  obtain ⟨j, hj1, hj2, hj3⟩ := validateCronParts_first m.inputs i hfail
  refine ⟨j, hj1, hj2, ?_, ?_, ?_, ?_⟩ <;>
    simp [updateDescription, hne, hws, hj3]

/-- Witness for C6: month field set to "S". -/
theorem updater_reports_first_invalid_witness :
    ∃ j : Fin 5,
      isValidCronPart ((⟨"20", "4", "*", "S", "*"⟩ : Inputs).get j) j.val = false
      ∧ (∀ k : Fin 5, k.val < j.val →
          isValidCronPart ((⟨"20", "4", "*", "S", "*"⟩ : Inputs).get k) k.val = true)
      ∧ (updateDescription (fun _ => Except.ok "d") (fun _ => Except.ok "t")
            ⟨⟨"20", "4", "*", "S", "*"⟩, "old", "old", none, ""⟩).1.err
          = some (errInvalidValue ++ ": " ++ fieldNames.getD j.val "")
      ∧ (updateDescription (fun _ => Except.ok "d") (fun _ => Except.ok "t")
            ⟨⟨"20", "4", "*", "S", "*"⟩, "old", "old", none, ""⟩).1.description = ""
      ∧ (updateDescription (fun _ => Except.ok "d") (fun _ => Except.ok "t")
            ⟨⟨"20", "4", "*", "S", "*"⟩, "old", "old", none, ""⟩).1.nextRun = ""
      ∧ (updateDescription (fun _ => Except.ok "d") (fun _ => Except.ok "t")
            ⟨⟨"20", "4", "*", "S", "*"⟩, "old", "old", none, ""⟩).2 = [] :=
  updater_reports_first_invalid (fun _ => Except.ok "d") (fun _ => Except.ok "t")
    ⟨⟨"20", "4", "*", "S", "*"⟩, "old", "old", none, ""⟩ ⟨3, by omega⟩
    (by decide) (by decide) (by decide)

/-- C7: in a processing cycle where all five fields pass validation, both
collaborators are invoked, in order; when the schedule parser fails while
the description succeeds, the wrapped parse error is stored, next-run is
cleared, and the freshly computed description remains. -/
theorem collaborators_invoked_independently :
    (∀ (descFn parseFn : String → Except String String) (m : Model),
      buildCronExpression m.inputs ≠ m.lastCronExpr →
      isAllWhitespace (buildCronExpression m.inputs) = false →
      (∀ i : Fin 5, isValidCronPart (m.inputs.get i) i.val = true) →
      (updateDescription descFn parseFn m).2
        = [Collab.descriptor, Collab.scheduleParser])
    ∧ (∀ (descFn parseFn : String → Except String String) (m : Model)
        (e d : String),
      buildCronExpression m.inputs ≠ m.lastCronExpr →
      isAllWhitespace (buildCronExpression m.inputs) = false →
      (∀ i : Fin 5, isValidCronPart (m.inputs.get i) i.val = true) →
      parseFn (buildCronExpression m.inputs) = Except.error e →
      descFn (buildCronExpression m.inputs) = Except.ok d →
      (updateDescription descFn parseFn m).1.err
          = some (errCronParse ++ ": " ++ e)
        ∧ (updateDescription descFn parseFn m).1.nextRun = ""
        ∧ (updateDescription descFn parseFn m).1.description = d) := by
  constructor
  · intro descFn parseFn m hne hws hv
    have hnone := validateCronParts_none m.inputs hv
    cases hd : descFn (buildCronExpression m.inputs) <;>
      cases hp : parseFn (buildCronExpression m.inputs) <;>
        simp [updateDescription, hne, hws, hnone, updateCronDescription,
          updateNextRunTime, hd, hp]
  · intro descFn parseFn m e d hne hws hv hp hd
    have hnone := validateCronParts_none m.inputs hv
    refine ⟨?_, ?_, ?_⟩ <;>
      simp [updateDescription, hne, hws, hnone, updateCronDescription,
        updateNextRunTime, hd, hp]

/-- Witness for C7: a valid expression, succeeding descriptor, failing
parser. -/
theorem collaborators_invoked_independently_witness :
    (updateDescription (fun _ => Except.ok "daily") (fun _ => Except.error "boom")
        ⟨⟨"20", "4", "*", "*", "*"⟩, "", "", none, ""⟩).2
      = [Collab.descriptor, Collab.scheduleParser]
    ∧ ((updateDescription (fun _ => Except.ok "daily") (fun _ => Except.error "boom")
          ⟨⟨"20", "4", "*", "*", "*"⟩, "", "", none, ""⟩).1.err
        = some (errCronParse ++ ": " ++ "boom")
      ∧ (updateDescription (fun _ => Except.ok "daily") (fun _ => Except.error "boom")
          ⟨⟨"20", "4", "*", "*", "*"⟩, "", "", none, ""⟩).1.nextRun = ""
      ∧ (updateDescription (fun _ => Except.ok "daily") (fun _ => Except.error "boom")
          ⟨⟨"20", "4", "*", "*", "*"⟩, "", "", none, ""⟩).1.description = "daily") :=
  ⟨collaborators_invoked_independently.1 (fun _ => Except.ok "daily")
      (fun _ => Except.error "boom") ⟨⟨"20", "4", "*", "*", "*"⟩, "", "", none, ""⟩
      (by decide) (by decide) (by decide),
   collaborators_invoked_independently.2 (fun _ => Except.ok "daily")
      (fun _ => Except.error "boom") ⟨⟨"20", "4", "*", "*", "*"⟩, "", "", none, ""⟩
      "boom" "daily" (by decide) (by decide) (by decide) rfl rfl⟩

/-- C8: when the synthesized expression equals the last-seen one the updater
returns the state unchanged without invoking collaborators; consequently a
second consecutive run with unchanged fields is a no-op with byte-identical
description and next-run. -/
theorem updater_cache_idempotent
    (descFn parseFn : String → Except String String) (m : Model) :
    (buildCronExpression m.inputs = m.lastCronExpr →
      updateDescription descFn parseFn m = (m, []))
    ∧ updateDescription descFn parseFn (updateDescription descFn parseFn m).1
        = ((updateDescription descFn parseFn m).1, []) := by
  constructor
  · exact updateDescription_noop descFn parseFn m
  · exact updateDescription_noop descFn parseFn _
      ((updateDescription_inputs descFn parseFn m).symm ▸
        (updateDescription_lastSeen descFn parseFn m).symm ▸ rfl)

/-- Witness for C8 on a cached state. -/
theorem updater_cache_idempotent_witness :
    updateDescription (fun _ => Except.ok "d") (fun _ => Except.ok "t")
        ⟨⟨"", "", "", "", ""⟩, "desc", "next", none, "* * * * *"⟩
      = (⟨⟨"", "", "", "", ""⟩, "desc", "next", none, "* * * * *"⟩, []) :=
  (updater_cache_idempotent (fun _ => Except.ok "d") (fun _ => Except.ok "t")
      ⟨⟨"", "", "", "", ""⟩, "desc", "next", none, "* * * * *"⟩).1 (by decide)

/-- C9: with an in-range focus index, tab advances to `(i+1) % 5` and
shift-tab retreats to `(i-1+5) % 5`, each blurring the previously focused
input and focusing the new one; advancing from 4 reaches 0 and retreating
from 0 reaches 4. -/
theorem focus_navigation (s : NavState) (j : Fin 5)
    (h0 : 0 ≤ s.focusIndex) (h1 : s.focusIndex < 5) :
    (handleTabNavigation s).focusIndex = (s.focusIndex + 1) % 5
    ∧ (handleShiftTabNavigation s).focusIndex = (s.focusIndex - 1 + 5) % 5
    ∧ (handleTabNavigation s).focused j
        = (if (j.val : Int) = (s.focusIndex + 1) % 5 then true
           else if (j.val : Int) = s.focusIndex then false else s.focused j)
    ∧ (handleShiftTabNavigation s).focused j
        = (if (j.val : Int) = (s.focusIndex - 1 + 5) % 5 then true
           else if (j.val : Int) = s.focusIndex then false else s.focused j)
    ∧ (s.focusIndex = 4 → (handleTabNavigation s).focusIndex = 0)
    ∧ (s.focusIndex = 0 → (handleShiftTabNavigation s).focusIndex = 4) := by
  have hshift : handleShiftTabNavigation s
      = { focusIndex := (s.focusIndex - 1 + 5) % 5,
          focused := focusAt (blurAt s.focused s.focusIndex)
            ((s.focusIndex - 1 + 5) % 5) } := by
    unfold handleShiftTabNavigation
    dsimp only
    by_cases hz : s.focusIndex - 1 < 0
    · rw [if_pos hz, if_pos (⟨by omega, by omega⟩ : (0 : Int) ≤ 4 ∧ (4 : Int) < 5)]
      have h4 : (s.focusIndex - 1 + 5) % 5 = 4 := by omega
      rw [h4]
    · rw [if_neg hz, if_pos (⟨by omega, by omega⟩
        : (0 : Int) ≤ s.focusIndex - 1 ∧ s.focusIndex - 1 < 5)]
      have heq : (s.focusIndex - 1 + 5) % 5 = s.focusIndex - 1 := by omega
      rw [heq]
  refine ⟨rfl, by rw [hshift], rfl, by rw [hshift]; rfl, ?_, ?_⟩
  · intro h4
    show (s.focusIndex + 1) % 5 = 0
    omega
  · intro hz
    rw [hshift]
    show (s.focusIndex - 1 + 5) % 5 = 4
    omega

/-- Witness for C9 at focus index 4. -/
theorem focus_navigation_witness :
    (handleTabNavigation ⟨4, fun _ => true⟩).focusIndex = ((4 : Int) + 1) % 5
    ∧ (handleShiftTabNavigation ⟨4, fun _ => true⟩).focusIndex
        = ((4 : Int) - 1 + 5) % 5 :=
  ⟨(focus_navigation ⟨4, fun _ => true⟩ ⟨0, by omega⟩ (by decide) (by decide)).1,
   (focus_navigation ⟨4, fun _ => true⟩ ⟨0, by omega⟩ (by decide) (by decide)).2.1⟩

end CrontabGuru
